import Mathlib

/-!
Verification of the detection-and-conversion pipeline of relicta-tech/migrate.

The Go sources embedded here are `internal/converter/converter.go`
(the schema converter: `Convert`, the four per-tool mapping functions and
their shared helpers) and `internal/detector/detector.go` (the tool
detector: `Detect` and the per-tool probes).

Modelling conventions:
* Go `map[string]any` values become association lists `Dict` over a
  dynamically typed value type `CVal`; Go type assertions
  (`data["k"].(string)` etc.) become the typed lookups `getStr`,
  `getBool`, `getMap`, `getList`.
* Go string fields with `omitempty` whose zero value is never observed
  (they are only assigned under a non-empty guard) are modelled as
  `Option String`, `none` standing for the Go zero value.
* `strings.ReplaceAll` is modelled by `repAll` on `List Char`
  (leftmost, non-overlapping replacement), `strings.TrimSuffix` by
  `trimSuffixL`, `strings.TrimPrefix` (sic) by `stripScope`.
* The filesystem seen by the detector is abstracted as an oracle `FS`
  giving, for each candidate file name, the outcome of
  `readConfigFile` (`none` = absent/unparseable, `some d` = parsed
  tree), plus the outcome of `readPackageJSON` on `package.json`.
-/

/-- A dynamically typed configuration value (Go `any` as produced by the
JSON/YAML readers): string, boolean, number, null, ordered list, or
nested string-keyed mapping. -/
inductive CVal where
  | str : String → CVal
  | bool : Bool → CVal
  | num : Int → CVal
  | null : CVal
  | list : List CVal → CVal
  | map : List (String × CVal) → CVal

/-- A generic config tree: Go `map[string]any`, as an association list in
insertion order. -/
abbrev Dict := List (String × CVal)

/-- Go map read `d[k]`. -/
def lookup (d : Dict) (k : String) : Option CVal :=
  (d.find? (fun kv => kv.1 = k)).map (fun kv => kv.2)

/-- Go `d[k].(string)` type assertion. -/
def getStr (d : Dict) (k : String) : Option String :=
  match lookup d k with
  | some (.str s) => some s
  | _ => none

/-- Go `d[k].(bool)` type assertion. -/
def getBool (d : Dict) (k : String) : Option Bool :=
  match lookup d k with
  | some (.bool b) => some b
  | _ => none

/-- Go `d[k].(map[string]any)` type assertion. -/
def getMap (d : Dict) (k : String) : Option Dict :=
  match lookup d k with
  | some (.map m) => some m
  | _ => none

/-- Go `d[k].([]any)` type assertion. -/
def getList (d : Dict) (k : String) : Option (List CVal) :=
  match lookup d k with
  | some (.list l) => some l
  | _ => none

/-- Go map write `d[k] = v`: overwrite the key if present, else append. -/
def dictSet (d : Dict) (k : String) (v : CVal) : Dict :=
  if (d.find? (fun kv => kv.1 = k)).isSome then
    d.map (fun kv => if kv.1 = k then (k, v) else kv)
  else d ++ [(k, v)]

/-- A possibly-nil Go map as a `CVal` (nil serializes as null). -/
def cvalOfOptDict : Option Dict → CVal
  | none => CVal.null
  | some d => CVal.map d

/-! ## Target schema (`RelictaConfig` and friends from converter.go) -/

/-- `VersioningConfig`: strategy plus the optional tag-prefix string
(Go field `TagPrefix`, `omitempty`; `none` = Go zero value ""). -/
structure VersioningConfig where
  strategy : String
  tagPfx : Option String

/-- `ChangelogConfig`. -/
structure ChangelogConfig where
  enabled : Bool
  template : Option String
  file : Option String

/-- `GitConfig`. -/
structure GitConfig where
  requireCleanTree : Bool
  pushTags : Bool
  createTag : Bool
  commitMessage : Option String
  tagMessage : Option String
  requireUpToDate : Bool
  allowedBranches : List String

/-- `PluginConfig`: name, enabled flag, optional free-form config map
(`none` = Go nil map). -/
structure PluginConfig where
  name : String
  enabled : Bool
  config : Option Dict

/-- `AIConfig` (reserved, never produced by any converter). -/
structure AIConfig where
  enabled : Bool
  provider : Option String

/-- `RelictaConfig`: the canonical configuration document. -/
structure RelictaConfig where
  versioning : VersioningConfig
  changelog : ChangelogConfig
  git : GitConfig
  plugins : List PluginConfig
  ai : Option AIConfig

/-! ## Template placeholder rewriting (`convertTemplate`, via Go
`strings.ReplaceAll`) -/

/-- Fuel-bounded core of leftmost non-overlapping replacement; with
`fuel ≥ s.length` and a non-empty pattern it computes Go
`strings.ReplaceAll(s, pat, repl)`. -/
def repAllAux (pat repl : List Char) : Nat → List Char → List Char
  | _, [] => []
  | 0, s => s
  | fuel + 1, c :: rest =>
    if pat <+: (c :: rest) then
      repl ++ repAllAux pat repl fuel ((c :: rest).drop pat.length)
    else
      c :: repAllAux pat repl fuel rest

/-- Go `strings.ReplaceAll(s, pat, repl)` on char lists. -/
def repAll (pat repl s : List Char) : List Char :=
  repAllAux pat repl s.length s

/-- The source placeholder `${version}`. -/
def verTok : List Char := "${version}".data

/-- The source placeholder `${nextRelease.version}`. -/
def nextVerTok : List Char := "${nextRelease.version}".data

/-- The source placeholder `{{version}}`. -/
def braceVerTok : List Char := "{{version}}".data

/-- The canonical replacement token `{{.Version}}`. -/
def canonTok : List Char := "{{.Version}}".data

/-- `convertTemplate` on char lists: the three literal substitutions in
source order. -/
def convertTemplateL (s : List Char) : List Char :=
  repAll braceVerTok canonTok (repAll nextVerTok canonTok (repAll verTok canonTok s))

/-- `convertTemplate`: rewrite the three source placeholder syntaxes to
the canonical `{{.Version}}` token. -/
def convertTemplate (template : String) : String :=
  String.mk (convertTemplateL template.data)

/-- Go `strings.TrimSuffix(s, sfx)` on char lists: remove `sfx` when it
is a trailing substring, else return `s` unchanged. -/
def trimSuffixL (s sfx : List Char) : List Char :=
  if sfx <:+ s then s.take (s.length - sfx.length) else s

/-- Go `strings.TrimSuffix` on strings. -/
def trimSuffixStr (s sfx : String) : String :=
  String.mk (trimSuffixL s.data sfx.data)

/-- Go `strings.TrimPrefix(name, "@semantic-release/")`: strip the
semantic-release scope from a plugin identifier when present. -/
def stripScope (name : String) : String :=
  if "@semantic-release/".data <+: name.data then
    String.mk (name.data.drop "@semantic-release/".data.length)
  else name

/-! ## Detection result -/

/-- `detector.Result`: tool identity (a string in Go: `type Tool string`),
config file path, parsed tree, highlights summary. -/
structure DetResult where
  tool : String
  configFile : String
  configData : Dict
  details : Dict

/-- `detector.ToolNone`. -/
def ToolNone : String := "none"

/-- `detector.ToolSemanticRelease`. -/
def ToolSemanticRelease : String := "semantic-release"

/-- `detector.ToolReleaseIt`. -/
def ToolReleaseIt : String := "release-it"

/-- `detector.ToolStandardVersion`. -/
def ToolStandardVersion : String := "standard-version"

/-- `detector.ToolGoReleaser`. -/
def ToolGoReleaser : String := "goreleaser"

/-! ## Schema converter (`converter.go`) -/

/-- The shared baseline document every converter starts from
(semantic-release / release-it / standard-version variant: no tag
prefix, no allowed-branch restriction). -/
def baseConfig : RelictaConfig :=
  { versioning := { strategy := "conventional", tagPfx := none }
    changelog := { enabled := true, template := none, file := some "CHANGELOG.md" }
    git := { requireCleanTree := true, pushTags := true, createTag := true
             commitMessage := none, tagMessage := none
             requireUpToDate := false, allowedBranches := [] }
    plugins := []
    ai := none }

/-- `extractBranches`: branch names from a semantic-release `branches`
list (plain strings, or maps with a string `name`). -/
def extractBranches (branches : List CVal) : List String :=
  branches.filterMap (fun b =>
    match b with
    | .str s => some s
    | .map m => getStr m "name"
    | _ => none)

/-- The plugin name extracted by the `switch` in
`convertSemanticReleasePlugins`: a plain string entry is the name; a
list entry takes its first element when that is a string; anything else
leaves the name empty. -/
def pluginEntryName : CVal → String
  | .str s => s
  | .list (x :: _) =>
    match x with
    | .str s => s
    | _ => ""
  | _ => ""

/-- The plugin config extracted by the same `switch`: the second element
of a list entry when that is a map, else nil. -/
def pluginEntryCfg : CVal → Option Dict
  | .list (_ :: y :: _) =>
    match y with
    | .map m => some m
    | _ => none
  | _ => none

/-- `mapSemanticReleasePlugin`: map one semantic-release plugin
identifier (plus its optional config) to a Relicta plugin entry, or
`none` when the functionality is absorbed by Relicta core. -/
def mapSemanticReleasePlugin (name : String) (config : Option Dict) : Option PluginConfig :=
  let name := stripScope name
  if name = "github" then some { name := "github", enabled := true, config := config }
  else if name = "gitlab" then some { name := "gitlab", enabled := true, config := config }
  else if name = "npm" then some { name := "npm", enabled := true, config := config }
  else if name = "changelog" ∨ name = "release-notes-generator" then
    -- Handled by Relicta core, not a plugin
    none
  else if name = "commit-analyzer" then none
  else if name = "git" then none
  else if name = "exec" then
    -- Custom commands - note this in config
    some { name := "custom", enabled := false
           config := some [("_note", .str "Migrate custom exec commands manually"),
                           ("_original", cvalOfOptDict config)] }
  else
    -- Unknown plugin - preserve for manual migration
    some { name := name, enabled := false
           config := some [("_note", .str "Unknown plugin - requires manual migration"),
                           ("_original", cvalOfOptDict config)] }

/-- `convertSemanticReleasePlugins`: the loop over the source plugin
list, appending every mapped entry. -/
def convertSemanticReleasePlugins (plugins : List CVal) : List PluginConfig :=
  plugins.filterMap (fun p => mapSemanticReleasePlugin (pluginEntryName p) (pluginEntryCfg p))

/-- `convertSemanticRelease`. -/
def convertSemanticRelease (result : DetResult) : RelictaConfig :=
  let data := result.configData
  let config := baseConfig
  -- Extract tag format ("v${version}" -> "v"); set only when non-empty
  let config :=
    match getStr data "tagFormat" with
    | some tagFormat =>
      let pfx := trimSuffixStr tagFormat "${version}"
      if pfx = "" then config
      else { config with versioning := { config.versioning with tagPfx := some pfx } }
    | none => config
  -- Extract branches
  let config :=
    match getList data "branches" with
    | some branches =>
      { config with git := { config.git with allowedBranches := extractBranches branches } }
    | none => config
  -- Convert plugins
  let config :=
    match getList data "plugins" with
    | some plugins => { config with plugins := convertSemanticReleasePlugins plugins }
    | none => config
  config

/-- `convertReleaseIt`. -/
def convertReleaseIt (result : DetResult) : RelictaConfig :=
  let data := result.configData
  let config := baseConfig
  -- Extract git config
  let config :=
    match getMap data "git" with
    | some git =>
      let config :=
        match getStr git "tagName" with
        | some tagName =>
          let pfx := trimSuffixStr tagName "${version}"
          if pfx = "" then config
          else { config with versioning := { config.versioning with tagPfx := some pfx } }
        | none => config
      let config :=
        match getStr git "commitMessage" with
        | some commitMessage =>
          { config with git := { config.git with commitMessage := some (convertTemplate commitMessage) } }
        | none => config
      let config :=
        match getStr git "tagAnnotation" with
        | some tagAnn =>
          { config with git := { config.git with tagMessage := some (convertTemplate tagAnn) } }
        | none => config
      let config :=
        match getBool git "requireCleanWorkingDir" with
        | some req => { config with git := { config.git with requireCleanTree := req } }
        | none => config
      let config :=
        match getBool git "push" with
        | some push => { config with git := { config.git with pushTags := push } }
        | none => config
      config
    | none => config
  -- Extract npm config
  let config :=
    match getMap data "npm" with
    | some npm =>
      match getBool npm "publish" with
      | some true =>
        { config with plugins := config.plugins ++ [{ name := "npm", enabled := true, config := none }] }
      | _ => config
    | none => config
  -- Extract github config
  let config :=
    match getMap data "github" with
    | some github =>
      match getBool github "release" with
      | some true =>
        let ghCfg : Dict := []
        let ghCfg :=
          match getBool github "draft" with
          | some draft => dictSet ghCfg "draft" (.bool draft)
          | none => ghCfg
        let ghCfg :=
          match getBool github "preRelease" with
          | some pre => dictSet ghCfg "prerelease" (.bool pre)
          | none => ghCfg
        { config with plugins := config.plugins ++
            [{ name := "github", enabled := true, config := some ghCfg }] }
      | _ => config
    | none => config
  -- Extract gitlab config
  let config :=
    match getMap data "gitlab" with
    | some gitlab =>
      match getBool gitlab "release" with
      | some true =>
        { config with plugins := config.plugins ++ [{ name := "gitlab", enabled := true, config := none }] }
      | _ => config
    | none => config
  config

/-- `convertStandardVersion`. -/
def convertStandardVersion (result : DetResult) : RelictaConfig :=
  let data := result.configData
  let config := baseConfig
  -- Extract tag prefix
  let config :=
    match getStr data "tagPrefix" with
    | some tp => { config with versioning := { config.versioning with tagPfx := some tp } }
    | none => config
  -- Extract skip options
  let config :=
    match getMap data "skip" with
    | some skip =>
      let config :=
        match getBool skip "changelog" with
        | some true => { config with changelog := { config.changelog with enabled := false } }
        | _ => config
      let config :=
        match getBool skip "tag" with
        | some true => { config with git := { config.git with createTag := false } }
        | _ => config
      config
    | none => config
  -- Extract commit message
  let config :=
    match getStr data "releaseCommitMessageFormat" with
    | some fmt => { config with git := { config.git with commitMessage := some (convertTemplate fmt) } }
    | none => config
  -- Extract changelog file path
  let config :=
    match getStr data "infile" with
    | some infile => { config with changelog := { config.changelog with file := some infile } }
    | none => config
  config

/-- `toStringSlice`: keep the string elements of an `[]any`. -/
def toStringSlice (input : List CVal) : List String :=
  input.filterMap (fun v =>
    match v with
    | .str s => some s
    | _ => none)

/-- The arch renaming of `extractGoReleaserAssets`
(amd64 -> x86_64, arm64 -> aarch64, others unchanged). -/
def archName (arch : String) : String :=
  if arch = "amd64" then "x86_64"
  else if arch = "arm64" then "aarch64"
  else arch

/-- One asset path: `release/<binary>_<os>_<archName><ext>`, `.zip` for
windows and `.tar.gz` otherwise. -/
def assetPath (binaryName os arch : String) : String :=
  "release/" ++ binaryName ++ "_" ++ os ++ "_" ++ archName arch ++
    (if os = "windows" then ".zip" else ".tar.gz")

/-- `extractGoReleaserAssets`: asset patterns from the GoReleaser build
matrix (first build's goos × goarch, defaults when absent), plus the
checksums manifest. -/
def extractGoReleaserAssets (data : Dict) (projectName : String) : List String :=
  -- Determine binary name
  let binaryName := projectName
  let binaryName :=
    match getList data "builds" with
    | some (b :: _) =>
      match b with
      | .map build =>
        match getStr build "binary" with
        | some binary => binary
        | none => binaryName
      | _ => binaryName
    | _ => binaryName
  let binaryName := if binaryName = "" then "{{.ProjectName}}" else binaryName
  -- Standard asset patterns based on common GoReleaser output
  let goos := ["linux", "darwin", "windows"]
  let goarch := ["amd64", "arm64"]
  -- Try to extract actual targets from config
  let (goos, goarch) :=
    match getList data "builds" with
    | some (b :: _) =>
      match b with
      | .map build =>
        let goos :=
          match getList build "goos" with
          | some g => toStringSlice g
          | none => goos
        let goarch :=
          match getList build "goarch" with
          | some g => toStringSlice g
          | none => goarch
        (goos, goarch)
      | _ => (goos, goarch)
    | _ => (goos, goarch)
  -- OS-major, arch-minor cross product, then checksums
  let assets := goos.flatMap (fun os => goarch.map (fun arch => assetPath binaryName os arch))
  assets ++ ["release/checksums.txt"]

/-- The asset-attachment loop of `convertGoReleaser`: store the asset
list on the first plugin named "github". -/
def attachAssets : List PluginConfig → List String → List PluginConfig
  | [], _ => []
  | p :: ps, assets =>
    if p.name = "github" then
      { p with config := some (dictSet (p.config.getD []) "assets" (.list (assets.map .str))) } :: ps
    else p :: attachAssets ps assets

/-- `convertGoReleaser`. -/
def convertGoReleaser (result : DetResult) : RelictaConfig :=
  let data := result.configData
  let config : RelictaConfig :=
    { versioning := { strategy := "conventional", tagPfx := some "v" }
      changelog := { enabled := true, template := none, file := some "CHANGELOG.md" }
      git := { requireCleanTree := true, pushTags := true, createTag := true
               commitMessage := none, tagMessage := none
               requireUpToDate := false, allowedBranches := ["main"] }
      plugins := []
      ai := none }
  -- Extract project name for reference
  let projectName :=
    match getStr data "project_name" with
    | some pn => pn
    | none => ""
  -- Extract changelog config
  let config :=
    match getMap data "changelog" with
    | some changelog =>
      match getBool changelog "skip" with
      | some true => { config with changelog := { config.changelog with enabled := false } }
      | _ => config
    | none => config
  -- Extract release config (else a default GitHub plugin)
  let config :=
    match getMap data "release" with
    | some release =>
      let ghCfg : Dict := []
      let ghCfg :=
        match getMap release "github" with
        | some github =>
          let ghCfg :=
            match getStr github "owner" with
            | some owner => dictSet ghCfg "owner" (.str owner)
            | none => ghCfg
          let ghCfg :=
            match getStr github "name" with
            | some nm => dictSet ghCfg "repo" (.str nm)
            | none => ghCfg
          ghCfg
        | none => ghCfg
      let ghCfg :=
        match getBool release "draft" with
        | some draft => dictSet ghCfg "draft" (.bool draft)
        | none => ghCfg
      let ghCfg :=
        match getStr release "prerelease" with
        | some pre => dictSet ghCfg "prerelease" (.bool (pre = "auto"))
        | none =>
          match getBool release "prerelease" with
          | some pre => dictSet ghCfg "prerelease" (.bool pre)
          | none => ghCfg
      let ghCfg :=
        match getStr release "name_template" with
        | some nt => dictSet ghCfg "name_template" (.str nt)
        | none => ghCfg
      { config with plugins := config.plugins ++
          [{ name := "github", enabled := true, config := some ghCfg }] }
    | none =>
      { config with plugins := config.plugins ++
          [{ name := "github", enabled := true, config := none }] }
  -- Extract build targets for assets config
  let assets := extractGoReleaserAssets data projectName
  let config :=
    if assets.length > 0 then { config with plugins := attachAssets config.plugins assets }
    else config
  -- (The snapshot/version_template extraction binds and discards its
  -- value in the source; it has no effect on the document.)
  config

/-- `Convert`: dispatch on the detected tool identity; unregistered
identities (including "none") fail with the unsupported-tool error. -/
def Convert (result : DetResult) : Except String RelictaConfig :=
  if result.tool = ToolSemanticRelease then .ok (convertSemanticRelease result)
  else if result.tool = ToolReleaseIt then .ok (convertReleaseIt result)
  else if result.tool = ToolStandardVersion then .ok (convertStandardVersion result)
  else if result.tool = ToolGoReleaser then .ok (convertGoReleaser result)
  else .error ("unsupported tool: " ++ result.tool)

/-! ## Tool detector (`detector.go`) -/

/-- The filesystem oracle: for each candidate file name in the probed
directory, `readConfig` is the outcome of `readConfigFile`
(`none` = absent / unreadable / unparseable-and-not-script,
`some d` = parsed tree, including the opaque-script marker tree), and
`pkg` is the outcome of `readPackageJSON` on `package.json`. -/
structure FS where
  readConfig : String → Option Dict
  pkg : Option Dict

/-- The dedicated semantic-release config file candidates, in probe order. -/
def semanticReleaseFiles : List String :=
  [".releaserc", ".releaserc.json", ".releaserc.yaml", ".releaserc.yml",
   "release.config.js", "release.config.cjs"]

/-- The dedicated release-it config file candidates, in probe order. -/
def releaseItFiles : List String :=
  [".release-it.json", ".release-it.yaml", ".release-it.yml",
   ".release-it.js", ".release-it.cjs", ".release-it.ts"]

/-- The dedicated standard-version config file candidates, in probe order. -/
def standardVersionFiles : List String :=
  [".versionrc", ".versionrc.json", ".versionrc.js", ".versionrc.cjs"]

/-- The dedicated GoReleaser config file candidates, in probe order. -/
def goreleaserFiles : List String :=
  [".goreleaser.yml", ".goreleaser.yaml", "goreleaser.yml", "goreleaser.yaml"]

/-- The first candidate file that parses, with its tree (the
`for _, file := range configFiles` loop shared by all probes). -/
def firstParse (fs : FS) (files : List String) : Option (String × Dict) :=
  files.findSome? (fun f => (fs.readConfig f).map (fun d => (f, d)))

/-- `countPlugins`: length of a list value, 0 for any other shape. -/
def countPlugins : CVal → Int
  | .list l => l.length
  | _ => 0

/-- `extractSemanticReleaseDetails`. -/
def extractSemanticReleaseDetails (data : Dict) : Dict :=
  let details : Dict := []
  let details :=
    match lookup data "branches" with
    | some branches => dictSet details "branches" branches
    | none => details
  let details :=
    match lookup data "plugins" with
    | some plugins => dictSet details "plugins" (.num (countPlugins plugins))
    | none => details
  let details :=
    match lookup data "tagFormat" with
    | some tagFormat => dictSet details "tagFormat" tagFormat
    | none => details
  details

/-- `extractReleaseItDetails`. -/
def extractReleaseItDetails (data : Dict) : Dict :=
  let details : Dict := []
  let details :=
    match getMap data "git" with
    | some git =>
      match lookup git "tagName" with
      | some tagName => dictSet details "tagName" tagName
      | none => details
    | none => details
  let details :=
    match getMap data "npm" with
    | some npm =>
      match lookup npm "publish" with
      | some publish => dictSet details "npmPublish" publish
      | none => details
    | none => details
  let details :=
    match getMap data "github" with
    | some github =>
      match lookup github "release" with
      | some release => dictSet details "githubRelease" release
      | none => details
    | none => details
  details

/-- `extractStandardVersionDetails`. -/
def extractStandardVersionDetails (data : Dict) : Dict :=
  let details : Dict := []
  let details :=
    match lookup data "tagPrefix" with
    | some tp => dictSet details "tagPrefix" tp
    | none => details
  let details :=
    match getMap data "skip" with
    | some skip => dictSet details "skip" (.map skip)
    | none => details
  let details :=
    match lookup data "types" with
    | some _ => dictSet details "customTypes" (.bool true)
    | none => details
  details

/-- `extractGoReleaserDetails`. -/
def extractGoReleaserDetails (data : Dict) : Dict :=
  let details : Dict := []
  let details :=
    match getStr data "project_name" with
    | some pn => dictSet details "projectName" (.str pn)
    | none => details
  let details :=
    match getList data "builds" with
    | some builds => dictSet details "buildsCount" (.num builds.length)
    | none => details
  let details :=
    match getList data "archives" with
    | some archives => dictSet details "archivesCount" (.num archives.length)
    | none => details
  let details :=
    match getMap data "release" with
    | some release =>
      let details :=
        match getMap release "github" with
        | some github => dictSet details "github" (.map github)
        | none => details
      let details :=
        match getBool release "draft" with
        | some draft => dictSet details "draft" (.bool draft)
        | none => details
      let details :=
        match lookup release "prerelease" with
        | some pre => dictSet details "prerelease" pre
        | none => details
      details
    | none => details
  let details :=
    match getMap data "changelog" with
    | some changelog =>
      let details :=
        match getBool changelog "skip" with
        | some skip => dictSet details "changelogSkip" (.bool skip)
        | none => details
      let details :=
        match getStr changelog "sort" with
        | some sort => dictSet details "changelogSort" (.str sort)
        | none => details
      details
    | none => details
  let details :=
    match getList data "builds" with
    | some (b :: _) =>
      match b with
      | .map build =>
        let details :=
          match getList build "goos" with
          | some goos => dictSet details "goos" (.list goos)
          | none => details
        let details :=
          match getList build "goarch" with
          | some goarch => dictSet details "goarch" (.list goarch)
          | none => details
        details
      | _ => details
    | _ => details
  details

/-- `detectSemanticRelease`: dedicated files first, then the `release`
key of `package.json`. -/
def detectSemanticRelease (fs : FS) : Option DetResult :=
  match firstParse fs semanticReleaseFiles with
  | some (path, data) =>
    some { tool := ToolSemanticRelease, configFile := path, configData := data
           details := extractSemanticReleaseDetails data }
  | none =>
    match fs.pkg with
    | some pkg =>
      match getMap pkg "release" with
      | some release =>
        some { tool := ToolSemanticRelease, configFile := "package.json (release key)"
               configData := release, details := extractSemanticReleaseDetails release }
      | none => none
    | none => none

/-- `detectReleaseIt`: dedicated files first, then the `release-it`
key of `package.json`. -/
def detectReleaseIt (fs : FS) : Option DetResult :=
  match firstParse fs releaseItFiles with
  | some (path, data) =>
    some { tool := ToolReleaseIt, configFile := path, configData := data
           details := extractReleaseItDetails data }
  | none =>
    match fs.pkg with
    | some pkg =>
      match getMap pkg "release-it" with
      | some releaseIt =>
        some { tool := ToolReleaseIt, configFile := "package.json (release-it key)"
               configData := releaseIt, details := extractReleaseItDetails releaseIt }
      | none => none
    | none => none

/-- `detectStandardVersion`: dedicated files first, then the
`standard-version` key of `package.json`. -/
def detectStandardVersion (fs : FS) : Option DetResult :=
  match firstParse fs standardVersionFiles with
  | some (path, data) =>
    some { tool := ToolStandardVersion, configFile := path, configData := data
           details := extractStandardVersionDetails data }
  | none =>
    match fs.pkg with
    | some pkg =>
      match getMap pkg "standard-version" with
      | some sv =>
        some { tool := ToolStandardVersion, configFile := "package.json (standard-version key)"
               configData := sv, details := extractStandardVersionDetails sv }
      | none => none
    | none => none

/-- `detectGoReleaser`: dedicated files only (no manifest fallback). -/
def detectGoReleaser (fs : FS) : Option DetResult :=
  match firstParse fs goreleaserFiles with
  | some (path, data) =>
    some { tool := ToolGoReleaser, configFile := path, configData := data
           details := extractGoReleaserDetails data }
  | none => none

/-- `Detect`: the probes in fixed priority order; first match wins (the
probes never return errors nor a "none"-tool result, so the loop's
error-continue and Tool-not-none guards are vacuous), else the "none"
result. -/
def Detect (fs : FS) : DetResult :=
  match detectSemanticRelease fs with
  | some r => r
  | none =>
    match detectReleaseIt fs with
    | some r => r
    | none =>
      match detectStandardVersion fs with
      | some r => r
      | none =>
        match detectGoReleaser fs with
        | some r => r
        | none => { tool := ToolNone, configFile := "", configData := [], details := [] }


/-! ## Support definitions for the claim statements -/

/-- Chunks interleaved with a separator (the shape of `repAll` output:
match-free chunks separated by replacement copies). -/
def joinSep (sep : List Char) : List (List Char) → List Char
  | [] => []
  | [c] => c
  | c :: cs => c ++ sep ++ joinSep sep cs

/-- The overlap conditions a pattern must satisfy against the canonical
token so that no occurrence of it can touch an inserted copy: the
pattern is non-empty, contains no `V`, is not inside the token, no
non-empty suffix of the token starts it, and no non-empty prefix of the
token ends it. -/
def okTok (q : List Char) : Prop :=
  q ≠ [] ∧ 'V' ∉ q ∧ ¬ q <:+: canonTok ∧
    (∀ n < 12, ¬ (canonTok.drop n <+: q)) ∧
    ∀ n < 13, 0 < n → ¬ (canonTok.take n <:+ q)

/-- The four registered tool identities, in conversion-dispatch order. -/
def supportedTools : List String :=
  [ToolSemanticRelease, ToolReleaseIt, ToolStandardVersion, ToolGoReleaser]

/-- A detection result carrying just a tool identity and a config tree. -/
def mkRes (tool : String) (data : Dict) : DetResult :=
  { tool := tool, configFile := "", configData := data, details := [] }

/-- The plugin identifiers absorbed into Relicta core behavior. -/
def coreAbsorbedNames : List String :=
  ["changelog", "release-notes-generator", "commit-analyzer", "git"]

/-- The plugin identifiers with a direct Relicta equivalent. -/
def passThroughNames : List String := ["github", "gitlab", "npm"]

/-- The GoReleaser tree of the asset-derivation test vector: one build
with the full OS triple, both architectures, and binary "plugin-test". -/
def grBuildsData : Dict :=
  [("builds", .list [.map
    [("binary", .str "plugin-test"),
     ("goos", .list [.str "linux", .str "darwin", .str "windows"]),
     ("goarch", .list [.str "amd64", .str "arm64"])]])]

/-- The dedicated config file candidates of each tool identity. -/
def toolFiles (t : String) : List String :=
  if t = ToolSemanticRelease then semanticReleaseFiles
  else if t = ToolReleaseIt then releaseItFiles
  else if t = ToolStandardVersion then standardVersionFiles
  else if t = ToolGoReleaser then goreleaserFiles
  else []

/-- The probe of each tool identity. -/
def detectOf (t : String) (fs : FS) : Option DetResult :=
  if t = ToolSemanticRelease then detectSemanticRelease fs
  else if t = ToolReleaseIt then detectReleaseIt fs
  else if t = ToolStandardVersion then detectStandardVersion fs
  else if t = ToolGoReleaser then detectGoReleaser fs
  else none

/-- Position of a tool identity in the fixed detection priority order. -/
def toolIdx (t : String) : Nat :=
  if t = ToolSemanticRelease then 0
  else if t = ToolReleaseIt then 1
  else if t = ToolStandardVersion then 2
  else if t = ToolGoReleaser then 3
  else 4

/-- The highlights extractor of each tool identity. -/
def detailsOf (t : String) (d : Dict) : Dict :=
  if t = ToolSemanticRelease then extractSemanticReleaseDetails d
  else if t = ToolReleaseIt then extractReleaseItDetails d
  else if t = ToolStandardVersion then extractStandardVersionDetails d
  else if t = ToolGoReleaser then extractGoReleaserDetails d
  else []

/-- A dedicated config file of tool `t` is present and parseable. -/
def hasDedicated (fs : FS) (t : String) : Bool :=
  (toolFiles t).any (fun f => (fs.readConfig f).isSome)

/-- A directory holding parseable dedicated files for release-it and
goreleaser, plus a package.json whose "release" key embeds a
semantic-release config. -/
def fsCE : FS :=
  { readConfig := fun f =>
      if f = ".release-it.json" then some [("git", .map [("tagName", .str "v${version}")])]
      else if f = ".goreleaser.yml" then some [("project_name", .str "app")]
      else none
    pkg := some [("release", .map [("branches", .list [.str "main"])])] }

/-- A directory holding only a parseable dedicated standard-version
config file. -/
def fsSV : FS :=
  { readConfig := fun f =>
      if f = ".versionrc" then some [("tagPrefix", .str "v")] else none
    pkg := none }

/-! ## Replacement machinery lemmas (towards C4) -/

theorem joinSep_cons_cons (sep x : List Char) (y : List Char) (t : List (List Char)) :
    joinSep sep (x :: y :: t) = x ++ sep ++ joinSep sep (y :: t) := by
  simp [joinSep]

theorem joinSep_cons_elt (sep : List Char) (a : Char) (x : List Char)
    (t : List (List Char)) :
    joinSep sep ((a :: x) :: t) = a :: joinSep sep (x :: t) := by
  cases t <;> simp [joinSep]

/-- An occurrence in a concatenation lies in the left part, in the right
part, or splits across the boundary. -/
theorem infix_append_split {q A B : List Char} (h : q <:+: A ++ B) :
    q <:+: A ∨ q <:+: B ∨
      ∃ q1 q2, q = q1 ++ q2 ∧ q1 ≠ [] ∧ q2 ≠ [] ∧ q1 <:+ A ∧ q2 <+: B := by
  obtain ⟨s, t, hst⟩ := h
  rw [List.append_assoc] at hst
  rcases List.append_eq_append_iff.mp hst with ⟨a2, hA, hqt⟩ | ⟨c2, _, hB⟩
  · rcases List.append_eq_append_iff.mp hqt with ⟨x, ha2, _⟩ | ⟨y, hq, hB2⟩
    · left
      exact ⟨s, x, by rw [hA, ha2, List.append_assoc]⟩
    · by_cases ha : a2 = []
      · subst ha
        right; left
        have hqy : q = y := by simpa using hq
        exact (List.IsPrefix.isInfix ⟨t, by rw [← hqy] at hB2; exact hB2.symm⟩)
      · by_cases hy : y = []
        · subst hy
          left
          have hqa : q = a2 := by simpa using hq
          exact (List.IsSuffix.isInfix ⟨s, by rw [hqa, hA]⟩)
        · right; right
          exact ⟨a2, y, hq, ha, hy, ⟨s, hA.symm⟩, ⟨t, hB2.symm⟩⟩
  · right; left
    exact ⟨c2, t, by rw [hB, List.append_assoc]⟩

/-- Decomposition of `repAllAux` output: match-free chunks (each an
infix of the input, the first a prefix) interleaved with the
replacement. -/
theorem repAllAux_decomp (pat repl : List Char) (hp : pat ≠ []) :
    ∀ fuel s, s.length ≤ fuel →
      ∃ c0 cs, repAllAux pat repl fuel s = joinSep repl (c0 :: cs) ∧
        c0 <+: s ∧ (∀ c ∈ c0 :: cs, ¬ pat <:+: c) ∧ ∀ c ∈ c0 :: cs, c <:+: s := by
  intro fuel
  induction fuel with
  | zero =>
    intro s hs
    have hnil : s = [] := List.eq_nil_of_length_eq_zero (Nat.le_zero.mp hs)
    subst hnil
    refine ⟨[], [], by simp [repAllAux, joinSep], List.nil_prefix, ?_, ?_⟩
    · intro c hc
      simp at hc
      subst hc
      simp [List.infix_nil, hp]
    · intro c hc
      simp at hc
      simp [hc]
  | succ n ih =>
    intro s hs
    match s with
    | [] =>
      refine ⟨[], [], by simp [repAllAux, joinSep], List.nil_prefix, ?_, ?_⟩
      · intro c hc
        simp at hc
        subst hc
        simp [List.infix_nil, hp]
      · intro c hc
        simp at hc
        simp [hc]
    | c :: rest =>
      by_cases hm : pat <+: (c :: rest)
      · have hlen : ((c :: rest).drop pat.length).length ≤ n := by
          have h1 : 1 ≤ pat.length := by
            cases pat with
            | nil => exact absurd rfl hp
            | cons a l => simp
          simp only [List.length_drop, List.length_cons] at *
          omega
        obtain ⟨c0, cs, heq, _, hfree, hinf⟩ := ih _ hlen
        refine ⟨[], c0 :: cs, ?_, List.nil_prefix, ?_, ?_⟩
        · rw [joinSep_cons_cons]
          simp [repAllAux, if_pos hm, heq]
        · intro x hx
          rcases List.mem_cons.mp hx with hx0 | hx1
          · subst hx0
            simp [List.infix_nil, hp]
          · exact hfree x hx1
        · intro x hx
          rcases List.mem_cons.mp hx with hx0 | hx1
          · subst hx0
            exact List.nil_infix
          · exact (hinf x hx1).trans (List.drop_suffix _ _).isInfix
      · have hlen : rest.length ≤ n := by
          simp only [List.length_cons] at hs
          omega
        obtain ⟨c0, cs, heq, hpre, hfree, hinf⟩ := ih rest hlen
        refine ⟨c :: c0, cs, ?_, ?_, ?_, ?_⟩
        · rw [joinSep_cons_elt]
          simp [repAllAux, if_neg hm, heq]
        · exact List.cons_prefix_cons.mpr ⟨rfl, hpre⟩
        · intro x hx
          rcases List.mem_cons.mp hx with hx0 | hx1
          · subst hx0
            intro hocc
            rcases List.infix_cons_iff.mp hocc with hpfx | htail
            · exact hm (hpfx.trans (List.cons_prefix_cons.mpr ⟨rfl, hpre⟩))
            · exact hfree c0 (List.mem_cons_self _ _) htail
          · exact hfree x (List.mem_cons_of_mem _ hx1)
        · intro x hx
          rcases List.mem_cons.mp hx with hx0 | hx1
          · subst hx0
            exact (List.cons_prefix_cons.mpr ⟨rfl, hpre⟩).isInfix
          · exact (hinf x (List.mem_cons_of_mem _ hx1)).trans
              (List.suffix_cons c rest).isInfix

/-- If every chunk is free of `q` and `q` satisfies the overlap
conditions, the interleaving with the canonical token is free of `q`. -/
theorem joinSep_no_occ (q : List Char) (hok : okTok q) :
    ∀ chunks : List (List Char), (∀ c ∈ chunks, ¬ q <:+: c) →
      ¬ q <:+: joinSep canonTok chunks := by
  obtain ⟨hq, hV, hqr, hsuf, hpre⟩ := hok
  have h12 : canonTok.length = 12 := by decide
  intro chunks
  induction chunks with
  | nil =>
    intro _ hocc
    rw [joinSep] at hocc
    exact hq (List.infix_nil.mp hocc)
  | cons c cs ih =>
    intro hfree hocc
    cases cs with
    | nil =>
      rw [joinSep] at hocc
      exact hfree c (List.mem_cons_self _ _) hocc
    | cons c2 cs2 =>
      rw [joinSep_cons_cons, List.append_assoc] at hocc
      rcases infix_append_split hocc with h1 | h2 | ⟨q1, q2, hq12, _, hq2ne, _, hq2p⟩
      · exact hfree c (List.mem_cons_self _ _) h1
      · rcases infix_append_split h2 with g1 | g2 |
          ⟨r1, r2, hr12, hr1ne, _, hr1s, _⟩
        · exact hqr g1
        · exact ih (fun x hx => hfree x (List.mem_cons_of_mem _ hx)) g2
        · have hlen : r1.length ≤ 12 := h12 ▸ hr1s.length_le
          have hdrop := List.suffix_iff_eq_drop.mp hr1s
          have hlt : canonTok.length - r1.length < 12 := by
            have : 0 < r1.length := List.length_pos.mpr hr1ne
            omega
          refine hsuf _ hlt ?_
          rw [← hdrop]
          exact ⟨r2, hr12.symm⟩
      · rcases List.prefix_or_prefix_of_prefix hq2p (List.prefix_append _ _) with hc | hc
        · have hlen : q2.length ≤ 12 := h12 ▸ hc.length_le
          have htake := List.prefix_iff_eq_take.mp hc
          have hpos : 0 < q2.length := List.length_pos.mpr hq2ne
          refine hpre q2.length (by omega) hpos ?_
          rw [← htake]
          exact ⟨q1, hq12.symm⟩
        · have hVq : 'V' ∈ q := by
            rw [hq12]
            exact List.mem_append_right _ (hc.mem (by decide))
          exact hV hVq

/-- After replacing `pat` by the canonical token, no occurrence of `pat`
remains (self-clearing pass). -/
theorem repAll_self_clear (pat : List Char) (hp : pat ≠ []) (hok : okTok pat)
    (s : List Char) : ¬ pat <:+: repAll pat canonTok s := by
  obtain ⟨c0, cs, heq, _, hfree, _⟩ := repAllAux_decomp pat canonTok hp s.length s le_rfl
  rw [repAll, heq]
  exact joinSep_no_occ pat hok _ hfree

/-- A replacement pass with the canonical token never introduces an
occurrence of another pattern satisfying the overlap conditions. -/
theorem repAll_preserve (pat q : List Char) (hp : pat ≠ []) (hok : okTok q)
    (s : List Char) (hqs : ¬ q <:+: s) : ¬ q <:+: repAll pat canonTok s := by
  obtain ⟨c0, cs, heq, _, _, hinf⟩ := repAllAux_decomp pat canonTok hp s.length s le_rfl
  rw [repAll, heq]
  exact joinSep_no_occ q hok _ (fun c hc hqc => hqs (hqc.trans (hinf c hc)))

/-- A string with no occurrence of the pattern is a fixed point of the
replacement. -/
theorem repAllAux_id (pat repl : List Char) (fuel : Nat) (s : List Char)
    (h : ¬ pat <:+: s) : repAllAux pat repl fuel s = s := by
  induction fuel generalizing s with
  | zero => cases s <;> simp [repAllAux]
  | succ n ih =>
    cases s with
    | nil => simp [repAllAux]
    | cons c rest =>
      have hnp : ¬ pat <+: c :: rest := fun hx => h hx.isInfix
      have hrest : ¬ pat <:+: rest := fun hx => h (hx.trans (List.suffix_cons c rest).isInfix)
      simp [repAllAux, if_neg hnp, ih rest hrest]

theorem repAll_id (pat repl s : List Char) (h : ¬ pat <:+: s) :
    repAll pat repl s = s :=
  repAllAux_id pat repl s.length s h

theorem verTok_ne_nil : verTok ≠ [] := by decide

theorem nextVerTok_ne_nil : nextVerTok ≠ [] := by decide

theorem braceVerTok_ne_nil : braceVerTok ≠ [] := by decide

theorem okTok_ver : okTok verTok := by unfold okTok; decide

theorem okTok_nextVer : okTok nextVerTok := by unfold okTok; decide

theorem okTok_braceVer : okTok braceVerTok := by unfold okTok; decide

/-- The normalized output contains none of the three source
placeholders. -/
theorem convertTemplateL_clean (s : List Char) :
    ¬ verTok <:+: convertTemplateL s ∧ ¬ nextVerTok <:+: convertTemplateL s ∧
      ¬ braceVerTok <:+: convertTemplateL s := by
  unfold convertTemplateL
  refine ⟨?_, ?_, ?_⟩
  · exact repAll_preserve braceVerTok verTok braceVerTok_ne_nil okTok_ver _
      (repAll_preserve nextVerTok verTok nextVerTok_ne_nil okTok_ver _
        (repAll_self_clear verTok verTok_ne_nil okTok_ver s))
  · exact repAll_preserve braceVerTok nextVerTok braceVerTok_ne_nil okTok_nextVer _
      (repAll_self_clear nextVerTok nextVerTok_ne_nil okTok_nextVer _)
  · exact repAll_self_clear braceVerTok braceVerTok_ne_nil okTok_braceVer _

theorem convertTemplateL_idem (s : List Char) :
    convertTemplateL (convertTemplateL s) = convertTemplateL s := by
  obtain ⟨h1, h2, h3⟩ := convertTemplateL_clean s
  show repAll braceVerTok canonTok (repAll nextVerTok canonTok
      (repAll verTok canonTok (convertTemplateL s))) = convertTemplateL s
  rw [repAll_id _ _ _ h1, repAll_id _ _ _ h2, repAll_id _ _ _ h3]

/-! ## Shared helper lemmas for the claims -/

/-- `TrimSuffix` leaves a string unchanged when the suffix does not
occur at its end. -/
theorem trimSuffixStr_of_not_suffix (s sfx : String) (h : ¬ sfx.data <:+ s.data) :
    trimSuffixStr s sfx = s := by
  unfold trimSuffixStr trimSuffixL
  rw [if_neg h]

/-- Tag-prefix extraction of `convertSemanticRelease` on a tree holding
just a `tagFormat` string. -/
theorem sr_tagPfx (s : String) :
    (convertSemanticRelease (mkRes ToolSemanticRelease [("tagFormat", CVal.str s)])).versioning.tagPfx
      = if trimSuffixStr s "${version}" = "" then none
        else some (trimSuffixStr s "${version}") := by
  by_cases h : trimSuffixStr s "${version}" = "" <;>
    simp [convertSemanticRelease, mkRes, getStr, getList, lookup, baseConfig, h]

/-- Tag-prefix extraction of `convertReleaseIt` on a tree holding just
`git.tagName`. -/
theorem ri_tagPfx (s : String) :
    (convertReleaseIt (mkRes ToolReleaseIt [("git", CVal.map [("tagName", CVal.str s)])])).versioning.tagPfx
      = if trimSuffixStr s "${version}" = "" then none
        else some (trimSuffixStr s "${version}") := by
  by_cases h : trimSuffixStr s "${version}" = "" <;>
    simp [convertReleaseIt, mkRes, getStr, getBool, getMap, getList, lookup, baseConfig, h]

/-! ## Claims -/

/-- C4: template placeholder normalization is idempotent — for every
input string, applying `convertTemplate` twice equals applying it once
(the canonical token `{{.Version}}` is never itself matched by the three
source patterns, so a second pass finds nothing to rewrite). -/
theorem claim_C4_normalize_idempotent (s : String) :
    convertTemplate (convertTemplate s) = convertTemplate s := by
  show String.mk (convertTemplateL (convertTemplateL s.data)) = String.mk (convertTemplateL s.data)
  exact congrArg String.mk (convertTemplateL_idem s.data)

/-- C5: tag-prefix extraction removes the trailing `${version}`
placeholder from the tag template and sets the prefix field only when
the remainder is non-empty (absent, not empty): for semantic-release
`tagFormat` and release-it `git.tagName`, `v${version}` yields prefix
`v` while `${version}` alone leaves the field unset. -/
theorem claim_C5_tag_pfx_extraction :
    (∀ s : String,
      (convertSemanticRelease (mkRes ToolSemanticRelease [("tagFormat", CVal.str s)])).versioning.tagPfx
        = if trimSuffixStr s "${version}" = "" then none
          else some (trimSuffixStr s "${version}")) ∧
    (∀ s : String,
      (convertReleaseIt (mkRes ToolReleaseIt [("git", CVal.map [("tagName", CVal.str s)])])).versioning.tagPfx
        = if trimSuffixStr s "${version}" = "" then none
          else some (trimSuffixStr s "${version}")) ∧
    (convertSemanticRelease (mkRes ToolSemanticRelease
        [("tagFormat", CVal.str "v${version}")])).versioning.tagPfx = some "v" ∧
    (convertSemanticRelease (mkRes ToolSemanticRelease
        [("tagFormat", CVal.str "${version}")])).versioning.tagPfx = none ∧
    (convertReleaseIt (mkRes ToolReleaseIt
        [("git", CVal.map [("tagName", CVal.str "v${version}")])])).versioning.tagPfx = some "v" ∧
    (convertReleaseIt (mkRes ToolReleaseIt
        [("git", CVal.map [("tagName", CVal.str "${version}")])])).versioning.tagPfx = none :=
  ⟨sr_tagPfx, ri_tagPfx, by rfl, by rfl, by rfl, by rfl⟩

/-- C10: when the tag template contains the version placeholder but does
not end with it, suffix removal removes nothing and the whole template
string, placeholder included, is stored verbatim as the tag prefix. -/
theorem claim_C10_nontrailing_placeholder :
    (∀ s : String, ¬ ("${version}".data <:+ s.data) → s ≠ "" →
      (convertSemanticRelease (mkRes ToolSemanticRelease
          [("tagFormat", CVal.str s)])).versioning.tagPfx = some s ∧
      (convertReleaseIt (mkRes ToolReleaseIt
          [("git", CVal.map [("tagName", CVal.str s)])])).versioning.tagPfx = some s) ∧
    (convertSemanticRelease (mkRes ToolSemanticRelease
        [("tagFormat", CVal.str "${version}-rc")])).versioning.tagPfx = some "${version}-rc" ∧
    (convertReleaseIt (mkRes ToolReleaseIt
        [("git", CVal.map [("tagName", CVal.str "release-${version}-final")])])).versioning.tagPfx
      = some "release-${version}-final" := by
  refine ⟨?_, by rfl, by rfl⟩
  intro s hnot hne
  have ht : trimSuffixStr s "${version}" = s := trimSuffixStr_of_not_suffix s _ hnot
  constructor
  · rw [sr_tagPfx, ht, if_neg hne]
  · rw [ri_tagPfx, ht, if_neg hne]

/-- C10 witness: the non-trailing template `${version}-rc` is stored
verbatim as the semantic-release tag prefix. -/
theorem claim_C10_witness :
    ¬ ("${version}".data <:+ "${version}-rc".data) ∧
    (convertSemanticRelease (mkRes ToolSemanticRelease
        [("tagFormat", CVal.str "${version}-rc")])).versioning.tagPfx = some "${version}-rc" :=
  ⟨by decide, (claim_C10_nontrailing_placeholder.1 "${version}-rc" (by decide) (by decide)).1⟩

/-- C7: for every detection result whose tool identity is "none" or any
identity without a registered mapping, `Convert` fails with the
unsupported-tool error and returns no configuration document. -/
theorem claim_C7_unsupported_tool (r : DetResult) (h : r.tool ∉ supportedTools) :
    Convert r = Except.error ("unsupported tool: " ++ r.tool) := by
  simp only [supportedTools, List.mem_cons, List.not_mem_nil, or_false, not_or] at h
  obtain ⟨h1, h2, h3, h4⟩ := h
  simp [Convert, h1, h2, h3, h4]

/-- C7 witness: converting the "none" detection result fails with the
unsupported-tool error. -/
theorem claim_C7_witness :
    ToolNone ∉ supportedTools ∧
    Convert (mkRes ToolNone []) = Except.error ("unsupported tool: " ++ ToolNone) :=
  ⟨by decide, claim_C7_unsupported_tool (mkRes ToolNone []) (by decide)⟩

/-- C8: for every supported tool identity and every config tree
whatsoever, `Convert` succeeds with a document — the error branch is
unreachable for supported identities. -/
theorem claim_C8_supported_total (r : DetResult) (h : r.tool ∈ supportedTools) :
    ∃ cfg, Convert r = Except.ok cfg := by
  rcases r with ⟨t, f, d, det⟩
  simp only [supportedTools, List.mem_cons, List.not_mem_nil, or_false] at h
  rcases h with rfl | rfl | rfl | rfl
  · exact ⟨_, rfl⟩
  · exact ⟨_, rfl⟩
  · exact ⟨_, rfl⟩
  · exact ⟨_, rfl⟩

/-- C8 witness: converting a GoReleaser result with an empty tree
succeeds. -/
theorem claim_C8_witness :
    ToolGoReleaser ∈ supportedTools ∧
    ∃ cfg, Convert (mkRes ToolGoReleaser []) = Except.ok cfg :=
  ⟨by decide, claim_C8_supported_total (mkRes ToolGoReleaser []) (by decide)⟩

/-- C9: the converter output never depends on the highlights summary —
two detection results agreeing on tool identity, config file and config
tree but with arbitrary `details` convert identically. -/
theorem claim_C9_details_irrelevant (r1 r2 : DetResult) (ht : r1.tool = r2.tool)
    (hf : r1.configFile = r2.configFile) (hd : r1.configData = r2.configData) :
    Convert r1 = Convert r2 := by
  rcases r1 with ⟨t1, f1, d1, x1⟩
  rcases r2 with ⟨t2, f2, d2, x2⟩
  obtain rfl : t1 = t2 := ht
  obtain rfl : f1 = f2 := hf
  obtain rfl : d1 = d2 := hd
  rfl

/-- C9 witness: a semantic-release result converts identically with an
empty and a non-empty highlights map. -/
theorem claim_C9_witness :
    Convert { tool := ToolSemanticRelease, configFile := ".releaserc"
              configData := [("tagFormat", CVal.str "v${version}")], details := [] }
      = Convert { tool := ToolSemanticRelease, configFile := ".releaserc"
                  configData := [("tagFormat", CVal.str "v${version}")]
                  details := [("tagFormat", CVal.str "v${version}")] } :=
  claim_C9_details_irrelevant _ _ rfl rfl rfl

/-- A plugin entry maps to nothing exactly when its stripped identifier
is core-absorbed. -/
theorem mapSemanticReleasePlugin_eq_none_iff (name : String) (cfg : Option Dict) :
    mapSemanticReleasePlugin name cfg = none ↔ stripScope name ∈ coreAbsorbedNames := by
  unfold mapSemanticReleasePlugin coreAbsorbedNames
  dsimp only
  split_ifs with h1 h2 h3 h4 h5 h6 h7 <;> simp_all
  tauto

/-- C2: every semantic-release plugin entry resolves to exactly one of
three outcomes: core-absorbed identifiers are omitted; github, gitlab
and npm pass through enabled with their config unmodified; exec and
every unrecognized identifier become a disabled plugin wrapping a note
plus the original config under reserved keys — and the output length
equals the number of entries that are not core-absorbed, so no entry is
silently dropped. -/
theorem claim_C2_plugin_mapping :
    (∀ (name : String) (cfg : Option Dict), stripScope name ∈ coreAbsorbedNames →
      mapSemanticReleasePlugin name cfg = none) ∧
    (∀ (name : String) (cfg : Option Dict), stripScope name ∈ passThroughNames →
      mapSemanticReleasePlugin name cfg =
        some { name := stripScope name, enabled := true, config := cfg }) ∧
    (∀ (name : String) (cfg : Option Dict),
      stripScope name ∉ coreAbsorbedNames → stripScope name ∉ passThroughNames →
      mapSemanticReleasePlugin name cfg =
        some { name := if stripScope name = "exec" then "custom" else stripScope name
               enabled := false
               config := some [("_note", CVal.str (if stripScope name = "exec"
                                 then "Migrate custom exec commands manually"
                                 else "Unknown plugin - requires manual migration")),
                               ("_original", cvalOfOptDict cfg)] }) ∧
    ∀ plugins : List CVal,
      (convertSemanticReleasePlugins plugins).length =
        plugins.countP (fun p => !decide (stripScope (pluginEntryName p) ∈ coreAbsorbedNames)) := by
  refine ⟨?_, ?_, ?_, ?_⟩
  · intro name cfg h
    simp only [coreAbsorbedNames, List.mem_cons, List.not_mem_nil, or_false] at h
    unfold mapSemanticReleasePlugin
    rcases h with h | h | h | h <;> simp [h]
  · intro name cfg h
    simp only [passThroughNames, List.mem_cons, List.not_mem_nil, or_false] at h
    unfold mapSemanticReleasePlugin
    rcases h with h | h | h <;> simp [h]
  · intro name cfg h1 h2
    simp only [coreAbsorbedNames, List.mem_cons, List.not_mem_nil, or_false, not_or] at h1
    simp only [passThroughNames, List.mem_cons, List.not_mem_nil, or_false, not_or] at h2
    obtain ⟨hc1, hc2, hc3, hc4⟩ := h1
    obtain ⟨hp1, hp2, hp3⟩ := h2
    unfold mapSemanticReleasePlugin
    by_cases he : stripScope name = "exec" <;>
      simp [hp1, hp2, hp3, hc1, hc2, hc3, hc4, he]
  · intro plugins
    induction plugins with
    | nil => rfl
    | cons p ps ih =>
      by_cases h : stripScope (pluginEntryName p) ∈ coreAbsorbedNames
      · have hm := (mapSemanticReleasePlugin_eq_none_iff (pluginEntryName p) (pluginEntryCfg p)).mpr h
        simp [convertSemanticReleasePlugins, List.filterMap_cons, hm, List.countP_cons, h] at *
        exact ih
      · rcases hm : mapSemanticReleasePlugin (pluginEntryName p) (pluginEntryCfg p) with _ | q
        · exact absurd ((mapSemanticReleasePlugin_eq_none_iff _ _).mp hm) h
        · simp [convertSemanticReleasePlugins, List.filterMap_cons, hm, List.countP_cons, h] at *
          exact ih

/-- C2 witness: the scoped github identifier passes through enabled with
its config untouched, and the list-level count holds on a sample list
containing all three outcome classes. -/
theorem claim_C2_witness :
    stripScope "@semantic-release/github" ∈ passThroughNames ∧
    mapSemanticReleasePlugin "@semantic-release/github" (some [("draft", CVal.bool true)]) =
      some { name := "github", enabled := true, config := some [("draft", CVal.bool true)] } ∧
    (convertSemanticReleasePlugins
        [CVal.str "@semantic-release/commit-analyzer",
         CVal.str "@semantic-release/github",
         CVal.str "@semantic-release/exec"]).length = 2 :=
  ⟨by decide,
   claim_C2_plugin_mapping.2.1 "@semantic-release/github" (some [("draft", CVal.bool true)])
     (by decide),
   by rw [claim_C2_plugin_mapping.2.2.2]; rfl⟩

/-- C3: asset derivation for a first build declaring goos
{linux, darwin, windows}, goarch {amd64, arm64} and binary
"plugin-test" yields exactly the 7 paths in OS-major order (amd64 as
x86_64, arm64 as aarch64, .zip for windows, .tar.gz otherwise) with the
checksums manifest appended last; with no build declaring the lists, the
default matrix is used and the binary name falls back to the project
name, then to the placeholder token. -/
theorem claim_C3_goreleaser_assets :
    extractGoReleaserAssets grBuildsData "plugin-test" =
      ["release/plugin-test_linux_x86_64.tar.gz",
       "release/plugin-test_linux_aarch64.tar.gz",
       "release/plugin-test_darwin_x86_64.tar.gz",
       "release/plugin-test_darwin_aarch64.tar.gz",
       "release/plugin-test_windows_x86_64.zip",
       "release/plugin-test_windows_aarch64.zip",
       "release/checksums.txt"] ∧
    (extractGoReleaserAssets grBuildsData "plugin-test").length = 7 ∧
    ∀ (data : Dict) (pn : String), lookup data "builds" = none →
      extractGoReleaserAssets data pn =
        (["linux", "darwin", "windows"].flatMap (fun os =>
          ["amd64", "arm64"].map (fun arch =>
            assetPath (if pn = "" then "{{.ProjectName}}" else pn) os arch))) ++
          ["release/checksums.txt"] := by
  refine ⟨by rfl, by rfl, ?_⟩
  intro data pn h
  simp [extractGoReleaserAssets, getList, h]

/-- C3 witness: with no builds key, the default matrix and the
project-name fallback produce the seven default paths. -/
theorem claim_C3_witness :
    extractGoReleaserAssets [] "myapp" =
      (["linux", "darwin", "windows"].flatMap (fun os =>
        ["amd64", "arm64"].map (fun arch =>
          assetPath (if "myapp" = "" then "{{.ProjectName}}" else "myapp") os arch))) ++
        ["release/checksums.txt"] :=
  claim_C3_goreleaser_assets.2.2 [] "myapp" rfl

/-- The derived asset list is never empty (the checksums manifest is
always appended). -/
theorem extractGoReleaserAssets_length_pos (data : Dict) (pn : String) :
    0 < (extractGoReleaserAssets data pn).length := by
  unfold extractGoReleaserAssets
  dsimp only
  split <;> simp [List.length_append]

/-- `convertGoReleaser` always emits exactly one plugin: an enabled
GitHub entry. -/
theorem convertGoReleaser_plugins_names (r : DetResult) :
    (convertGoReleaser r).plugins.map (fun p => (p.name, p.enabled)) = [("github", true)] := by
  unfold convertGoReleaser
  dsimp only
  rw [if_pos (extractGoReleaserAssets_length_pos _ _)]
  split <;> split <;> (try split) <;> simp [attachAssets]

/-- C6 counterexample: on an empty GoReleaser tree the single GitHub
plugin entry is NOT bare — the converter always attaches the derived
default asset list to its configuration. -/
theorem claim_C6_counterexample :
    (convertGoReleaser (mkRes ToolGoReleaser [])).plugins =
      [{ name := "github", enabled := true
         config := some [("assets", CVal.list
           [CVal.str "release/{{.ProjectName}}_linux_x86_64.tar.gz",
            CVal.str "release/{{.ProjectName}}_linux_aarch64.tar.gz",
            CVal.str "release/{{.ProjectName}}_darwin_x86_64.tar.gz",
            CVal.str "release/{{.ProjectName}}_darwin_aarch64.tar.gz",
            CVal.str "release/{{.ProjectName}}_windows_x86_64.zip",
            CVal.str "release/{{.ProjectName}}_windows_aarch64.zip",
            CVal.str "release/checksums.txt"])] }] ∧
    (convertGoReleaser (mkRes ToolGoReleaser [])).plugins ≠
      [{ name := "github", enabled := true, config := none }] := by
  refine ⟨rfl, ?_⟩
  intro h
  have h2 : [true] = ([false] : List Bool) := by
    calc [true]
        = (convertGoReleaser (mkRes ToolGoReleaser [])).plugins.map
            (fun p => p.config.isSome) := rfl
      _ = [false] := by rw [h]; rfl
  exact (by decide : ¬ [true] = ([false] : List Bool)) h2

/-- C6 (amended): converting an empty tree yields each tool's baseline
(conventional strategy, changelog on with CHANGELOG.md, clean-tree /
create-tag / push-tags on); GoReleaser additionally seeds tag prefix
"v" and allowed branch "main", and always emits exactly one GitHub
plugin entry — enabled, with the derived default asset list as its only
configuration when the source declares no release configuration. -/
theorem claim_C6_empty_tree_defaults :
    convertSemanticRelease (mkRes ToolSemanticRelease []) =
      { versioning := { strategy := "conventional", tagPfx := none }
        changelog := { enabled := true, template := none, file := some "CHANGELOG.md" }
        git := { requireCleanTree := true, pushTags := true, createTag := true
                 commitMessage := none, tagMessage := none
                 requireUpToDate := false, allowedBranches := [] }
        plugins := [], ai := none } ∧
    convertReleaseIt (mkRes ToolReleaseIt []) =
      { versioning := { strategy := "conventional", tagPfx := none }
        changelog := { enabled := true, template := none, file := some "CHANGELOG.md" }
        git := { requireCleanTree := true, pushTags := true, createTag := true
                 commitMessage := none, tagMessage := none
                 requireUpToDate := false, allowedBranches := [] }
        plugins := [], ai := none } ∧
    convertStandardVersion (mkRes ToolStandardVersion []) =
      { versioning := { strategy := "conventional", tagPfx := none }
        changelog := { enabled := true, template := none, file := some "CHANGELOG.md" }
        git := { requireCleanTree := true, pushTags := true, createTag := true
                 commitMessage := none, tagMessage := none
                 requireUpToDate := false, allowedBranches := [] }
        plugins := [], ai := none } ∧
    convertGoReleaser (mkRes ToolGoReleaser []) =
      { versioning := { strategy := "conventional", tagPfx := some "v" }
        changelog := { enabled := true, template := none, file := some "CHANGELOG.md" }
        git := { requireCleanTree := true, pushTags := true, createTag := true
                 commitMessage := none, tagMessage := none
                 requireUpToDate := false, allowedBranches := ["main"] }
        plugins := [{ name := "github", enabled := true
                      config := some [("assets", CVal.list
                        [CVal.str "release/{{.ProjectName}}_linux_x86_64.tar.gz",
                         CVal.str "release/{{.ProjectName}}_linux_aarch64.tar.gz",
                         CVal.str "release/{{.ProjectName}}_darwin_x86_64.tar.gz",
                         CVal.str "release/{{.ProjectName}}_darwin_aarch64.tar.gz",
                         CVal.str "release/{{.ProjectName}}_windows_x86_64.zip",
                         CVal.str "release/{{.ProjectName}}_windows_aarch64.zip",
                         CVal.str "release/checksums.txt"])] }]
        ai := none } ∧
    ∀ data : Dict,
      ((convertGoReleaser (mkRes ToolGoReleaser data)).plugins.countP
        (fun p => p.name == "github")) = 1 := by
  refine ⟨rfl, rfl, rfl, rfl, ?_⟩
  intro data
  have hmap := convertGoReleaser_plugins_names (mkRes ToolGoReleaser data)
  have h2 : (((convertGoReleaser (mkRes ToolGoReleaser data)).plugins.map
      (fun p => (p.name, p.enabled))).countP (fun q => q.1 == "github")) = 1 := by
    rw [hmap]
    rfl
  rw [List.countP_map] at h2
  exact h2

/-- A present-and-parseable candidate makes the shared file loop
return a parsed tree. -/
theorem firstParse_isSome_of_any {fs : FS} {files : List String}
    (h : ∃ f ∈ files, (fs.readConfig f).isSome = true) :
    ∃ f d, firstParse fs files = some (f, d) := by
  have h2 : (firstParse fs files).isSome := by
    rw [firstParse, List.findSome?_isSome_iff]
    obtain ⟨f, hfmem, hs⟩ := h
    exact ⟨f, hfmem, by simpa using hs⟩
  obtain ⟨⟨f, d⟩, hval⟩ := Option.isSome_iff_exists.mp h2
  exact ⟨f, d, hval⟩

/-- C1 counterexample: dedicated parseable configs exist for exactly
release-it and goreleaser, yet `Detect` returns semantic-release (the
shared package.json manifest holds a "release" key), not the
priority-first tool among those with dedicated files. -/
theorem claim_C1_counterexample :
    hasDedicated fsCE ToolReleaseIt = true ∧
    hasDedicated fsCE ToolGoReleaser = true ∧
    hasDedicated fsCE ToolSemanticRelease = false ∧
    hasDedicated fsCE ToolStandardVersion = false ∧
    (Detect fsCE).tool = ToolSemanticRelease ∧
    (Detect fsCE).tool ≠ ToolReleaseIt :=
  ⟨by decide, by decide, by decide, by decide, rfl, by decide⟩

/-- C1 (amended): when a supported tool has a present-and-parseable
dedicated config file and no earlier-priority tool matches via any
probe (dedicated file or shared package.json key), `Detect` returns
that tool together with the parsed tree of its first matching dedicated
file. -/
theorem claim_C1_detection_priority (fs : FS) (t : String)
    (ht : t ∈ supportedTools)
    (hd : hasDedicated fs t = true)
    (he : ∀ u ∈ supportedTools, toolIdx u < toolIdx t → detectOf u fs = none) :
    ∃ f d, firstParse fs (toolFiles t) = some (f, d) ∧
      Detect fs = { tool := t, configFile := f, configData := d
                    details := detailsOf t d } := by
  simp only [supportedTools, List.mem_cons, List.not_mem_nil, or_false] at ht
  rcases ht with rfl | rfl | rfl | rfl
  · have hd2 : ∃ f ∈ semanticReleaseFiles, (fs.readConfig f).isSome = true := by
      simpa [hasDedicated, toolFiles, ToolSemanticRelease] using hd
    obtain ⟨f, d, hfd⟩ := firstParse_isSome_of_any hd2
    have h1 : detectSemanticRelease fs = some
        { tool := ToolSemanticRelease, configFile := f, configData := d
          details := extractSemanticReleaseDetails d } := by
      unfold detectSemanticRelease
      rw [hfd]
    refine ⟨f, d, by simp [toolFiles, ToolSemanticRelease, hfd], ?_⟩
    simp [Detect, h1, detailsOf, ToolSemanticRelease]
  · have hSR : detectSemanticRelease fs = none := by
      have h := he ToolSemanticRelease (by simp [supportedTools]) (by decide)
      simpa [detectOf] using h
    have hd2 : ∃ f ∈ releaseItFiles, (fs.readConfig f).isSome = true := by
      simpa [hasDedicated, toolFiles, ToolSemanticRelease, ToolReleaseIt] using hd
    obtain ⟨f, d, hfd⟩ := firstParse_isSome_of_any hd2
    have h1 : detectReleaseIt fs = some
        { tool := ToolReleaseIt, configFile := f, configData := d
          details := extractReleaseItDetails d } := by
      unfold detectReleaseIt
      rw [hfd]
    refine ⟨f, d, by simp [toolFiles, ToolSemanticRelease, ToolReleaseIt, hfd], ?_⟩
    simp [Detect, hSR, h1, detailsOf, ToolSemanticRelease, ToolReleaseIt]
  · have hSR : detectSemanticRelease fs = none := by
      have h := he ToolSemanticRelease (by simp [supportedTools]) (by decide)
      simpa [detectOf] using h
    have hRI : detectReleaseIt fs = none := by
      have h := he ToolReleaseIt (by simp [supportedTools]) (by decide)
      simpa [detectOf] using h
    have hd2 : ∃ f ∈ standardVersionFiles, (fs.readConfig f).isSome = true := by
      simpa [hasDedicated, toolFiles, ToolSemanticRelease, ToolReleaseIt,
        ToolStandardVersion] using hd
    obtain ⟨f, d, hfd⟩ := firstParse_isSome_of_any hd2
    have h1 : detectStandardVersion fs = some
        { tool := ToolStandardVersion, configFile := f, configData := d
          details := extractStandardVersionDetails d } := by
      unfold detectStandardVersion
      rw [hfd]
    refine ⟨f, d, by simp [toolFiles, ToolSemanticRelease, ToolReleaseIt,
      ToolStandardVersion, hfd], ?_⟩
    simp [Detect, hSR, hRI, h1, detailsOf, ToolSemanticRelease, ToolReleaseIt,
      ToolStandardVersion]
  · have hSR : detectSemanticRelease fs = none := by
      have h := he ToolSemanticRelease (by simp [supportedTools]) (by decide)
      simpa [detectOf] using h
    have hRI : detectReleaseIt fs = none := by
      have h := he ToolReleaseIt (by simp [supportedTools]) (by decide)
      simpa [detectOf] using h
    have hSV : detectStandardVersion fs = none := by
      have h := he ToolStandardVersion (by simp [supportedTools]) (by decide)
      simpa [detectOf] using h
    have hd2 : ∃ f ∈ goreleaserFiles, (fs.readConfig f).isSome = true := by
      simpa [hasDedicated, toolFiles, ToolSemanticRelease, ToolReleaseIt,
        ToolStandardVersion, ToolGoReleaser] using hd
    obtain ⟨f, d, hfd⟩ := firstParse_isSome_of_any hd2
    have h1 : detectGoReleaser fs = some
        { tool := ToolGoReleaser, configFile := f, configData := d
          details := extractGoReleaserDetails d } := by
      unfold detectGoReleaser
      rw [hfd]
    refine ⟨f, d, by simp [toolFiles, ToolSemanticRelease, ToolReleaseIt,
      ToolStandardVersion, ToolGoReleaser, hfd], ?_⟩
    simp [Detect, hSR, hRI, hSV, h1, detailsOf, ToolSemanticRelease, ToolReleaseIt,
      ToolStandardVersion, ToolGoReleaser]

/-- C1 witness: a directory with only a dedicated standard-version file
is detected as standard-version with that file's tree. -/
theorem claim_C1_witness :
    hasDedicated fsSV ToolStandardVersion = true ∧
    ∃ f d, firstParse fsSV (toolFiles ToolStandardVersion) = some (f, d) ∧
      Detect fsSV = { tool := ToolStandardVersion, configFile := f, configData := d
                      details := detailsOf ToolStandardVersion d } :=
  ⟨by decide,
   claim_C1_detection_priority fsSV ToolStandardVersion (by decide) (by decide) (by
     intro u hu hlt
     simp only [supportedTools, List.mem_cons, List.not_mem_nil, or_false] at hu
     rcases hu with rfl | rfl | rfl | rfl
     · rfl
     · rfl
     · exact absurd hlt (by decide)
     · exact absurd hlt (by decide))⟩
